import Mathlib

/-!
Verification development for the tip-and-hours calculator
(`calculator/tips.py`, `calculator/clock.py`, `calculator/sales.py`).

The Python code is shallowly embedded: pandas DataFrames are modelled as
lists of typed rows or lists of column names, floating point arithmetic is
modelled by exact rationals, machine strings by `String` / `List Char`, and
code that raises exceptions by `Except` / `Option`.
-/

deriving instance DecidableEq for Except

namespace TipHours

/-! ## Distribution engine (tips.py, `distribute_daily_tips_df`, lines 446-466)

A `TRow` is one row of the reconciled tips table after `_normalize_df`
(line 248-258): the four detected columns projected out, with hours and
tips already coerced to numbers (`pd.to_numeric(...).fillna(0.0)`).
Calendar dates are modelled abstractly as integers (only equality and
ordering of dates matter to the engine). -/

structure TRow where
  name : String
  date : Int
  hours : Rat
  tips : Rat
deriving DecidableEq, Repr

/-- Raw row before `_normalize_df`: hours and tips cells may fail numeric
coercion (`errors="coerce"` gives NaN, modelled by `none`). -/
structure RawRow where
  name : String
  date : Int
  hours : Option Rat
  tips : Option Rat
deriving DecidableEq, Repr

/-- Embeds `_normalize_df` (tips.py lines 254-258): `fillna(0.0)` on the
hours and tips columns. -/
def normalizeRow (r : RawRow) : TRow :=
  ⟨r.name, r.date, r.hours.getD 0, r.tips.getD 0⟩

/-- Total tips of one day group: `day_data[tips_col].sum()` (line 450). -/
def dayTips (day : List TRow) : Rat :=
  (day.map (fun r => r.tips)).sum

/-- Total staff hours of one day group: `day_data[hours_col].sum()` (line 451). -/
def dayHours (day : List TRow) : Rat :=
  (day.map (fun r => r.hours)).sum

/-- Python dict accumulation
`final_tip_distribution[name] = final_tip_distribution.get(name, 0.0) + v`
(line 463): insertion-ordered association list, adding to an existing key in
place and appending a new key at the end. -/
def upsert : List (String × Rat) → String → Rat → List (String × Rat)
  | [], n, v => [(n, v)]
  | (k, w) :: t, n, v =>
      if k = n then (k, w + v) :: t else (k, w) :: upsert t n v

/-- Body of the inner `for _, row in day_data.iterrows()` loop
(lines 456-463): rows with `employee_hours <= 0` are skipped, the others
receive `day_total_tips * (employee_hours / day_total_staff_hours)`. -/
def rowStep (T H : Rat) (acc : List (String × Rat)) (r : TRow) : List (String × Rat) :=
  if r.hours ≤ 0 then acc else upsert acc r.name (T * (r.hours / H))

/-- Body of the outer `for date, day_data in daily_groups` loop
(lines 449-463): a date whose total hours are non-positive or whose total
tips are zero is skipped (`continue`, line 453-454). -/
def dayStep (acc : List (String × Rat)) (day : List TRow) : List (String × Rat) :=
  if dayHours day ≤ 0 ∨ dayTips day = 0 then acc
  else day.foldl (rowStep (dayTips day) (dayHours day)) acc

/-- Sorted insertion without duplicates; folding it over a list of keys
yields the sorted distinct keys, which is how pandas `groupby` (sort=True,
the default) enumerates its groups. -/
def insertSorted {α : Type} [LinearOrder α] (n : α) : List α → List α
  | [] => [n]
  | m :: t =>
      if n = m then m :: t
      else if n < m then n :: m :: t
      else m :: insertSorted n t

/-- Sorted distinct keys of a list, the group enumeration order of
pandas `groupby`. -/
def sortedKeys {α : Type} [LinearOrder α] (l : List α) : List α :=
  l.foldl (fun acc n => insertSorted n acc) []

/-- Embeds `df.groupby(df[date_col].dt.date)` (line 447): one group per
distinct date, in ascending date order, each group keeping the original
row order. -/
def groupByDate (rows : List TRow) : List (List TRow) :=
  (sortedKeys (rows.map (fun r => r.date))).map
    (fun d => rows.filter (fun r => r.date = d))

/-- Embeds the whole distribution loop (lines 446-463): fold `dayStep`
over the day groups starting from the empty dict. -/
def tipDistribution (rows : List TRow) : List (String × Rat) :=
  (groupByDate rows).foldl dayStep []

/-- Processing a list of already-grouped days (the loop of line 449 run on
an explicit group list); `tipDistribution rows` is this applied to
`groupByDate rows`. -/
def processDays (acc : List (String × Rat)) (days : List (List TRow)) : List (String × Rat) :=
  days.foldl dayStep acc

/-- Sum of the values of the accumulator dict; the total money handed out. -/
def distMass (m : List (String × Rat)) : Rat :=
  (m.map (fun p => p.2)).sum

/-! ## String helpers shared by several detectors -/

/-- Bool test that `pat` is a leading segment of `l`. -/
def leadSeg : List Char → List Char → Bool
  | [], _ => true
  | _ :: _, [] => false
  | a :: as, b :: bs => a = b && leadSeg as bs

/-- Bool test that `pat` occurs contiguously inside `l`; the Python
`pat in s` substring test on strings. -/
def containsSeg (pat : List Char) : List Char → Bool
  | [] => pat.isEmpty
  | c :: rest => leadSeg pat (c :: rest) || containsSeg pat rest

/-- Python `kw in s` for strings. -/
def strContains (s pat : String) : Bool :=
  containsSeg pat.toList s.toList

/-- Python `str.lower()` for the ASCII column and cell names in scope. -/
def lowerChar (c : Char) : Char :=
  if 65 ≤ c.toNat ∧ c.toNat ≤ 90 then Char.ofNat (c.toNat + 32) else c

/-- Lower-casing of a whole string. -/
def lowerString (s : String) : String :=
  String.mk (s.toList.map lowerChar)

/-- Python `str.strip()` (ASCII whitespace suffices for the cells in
scope). -/
def trimChars (l : List Char) : List Char :=
  ((l.dropWhile Char.isWhitespace).reverse.dropWhile Char.isWhitespace).reverse

/-- Python `" ".join(...)` at the character level. -/
def joinSpace : List (List Char) → List Char
  | [] => []
  | [x] => x
  | x :: y :: rest => x ++ ' ' :: joinSpace (y :: rest)

/-! ## Header locator (tips.py, `read_file_to_df`, lines 69-95)

A raw cell is `Option String`: `none` models a NaN cell, `some s` a cell
whose `str(...)` form is `s`. The table has a fixed column count `ncols`
(`len(df.columns)`). -/

/-- One cell counts as non-empty when it is not NaN and its stripped
string form is not empty (line 79). -/
def cellFilled : Option String → Bool
  | none => false
  | some s => !(trimChars s.toList).isEmpty

/-- Number of non-empty cells of a row (line 79). -/
def countFilled (row : List (Option String)) : Nat :=
  (row.filter cellFilled).length

/-- Python `str(c).lower()` of a cell; `str(nan)` is the text `nan`. -/
def cellText : Option String → List Char
  | none => "nan".toList
  | some s => s.toList.map lowerChar

/-- The lower-cased space-joined text of a row (line 74). -/
def rowText (row : List (Option String)) : List Char :=
  joinSpace (row.map cellText)

/-- Report-title keywords of line 80. -/
def reportKeywords : List String :=
  ["report", "sales", "summary", "total"]

/-- Whether the joined row text contains a report keyword (line 80). -/
def hasReportKw (row : List (Option String)) : Bool :=
  reportKeywords.any (fun kw => containsSeg kw.toList (rowText row))

/-- A row survives both skip filters of lines 82-85: at least 40 percent
of its cells are filled, and it is not a sparse report-title row.  The
float thresholds `ncols * 0.4` and `ncols * 0.7` are modelled exactly by
the rational comparisons `5 * filled ≥ 2 * ncols` and
`10 * filled < 7 * ncols` (for these products the double rounding of 0.4
and 0.7 never crosses an integer, so the comparisons agree). -/
def rowPasses (ncols : Nat) (row : List (Option String)) : Bool :=
  (2 * ncols ≤ 5 * countFilled row) &&
    !(hasReportKw row && 10 * countFilled row < 7 * ncols)

/-- Embeds the header scan of lines 70-90: tables with at most one row
keep header index 0; otherwise the first row among the first 15 that
passes both filters is chosen, defaulting to 0. -/
def locateHeader (ncols : Nat) (rows : List (List (Option String))) : Nat :=
  if rows.length ≤ 1 then 0
  else ((rows.take 15).findIdx? (rowPasses ncols)).getD 0

/-! ## Tip-cell cleaning (tips.py lines 199-208, sales.py lines 59-70)

The pandas pipeline
`.str.replace("$","").str.replace(",","").str.replace("(","-")
.str.replace(")","").str.strip()` followed by
`pd.to_numeric(..., errors="coerce")`. -/

/-- Numeric value of a digit character. -/
def digitVal (c : Char) : Nat := c.toNat - 48

/-- Value of a digit string read in base 10. -/
def digitsVal (l : List Char) : Nat :=
  l.foldl (fun a c => 10 * a + digitVal c) 0

/-- Value of the fractional digits after the decimal point. -/
def fracVal (l : List Char) : Rat :=
  (digitsVal l : Rat) / (10 : Rat) ^ l.length

/-- Unsigned decimal numeral parser: the fragment of the Python float
grammar used by the tip cells (digits with an optional single decimal
point, at least one digit). -/
def parseUnsigned (l : List Char) : Option Rat :=
  let ds := l.takeWhile Char.isDigit
  match l.dropWhile Char.isDigit with
  | [] => if ds.isEmpty then none else some ((digitsVal ds : Nat) : Rat)
  | '.' :: fs =>
      if ds.isEmpty && fs.isEmpty then none
      else if fs.all Char.isDigit then some ((digitsVal ds : Rat) + fracVal fs)
      else none
  | _ => none

/-- Signed numeral parser, the shape `pd.to_numeric` accepts for the
cleaned cells (an optional single leading sign). -/
def parseSigned (l : List Char) : Option Rat :=
  match l with
  | '-' :: rest => (parseUnsigned rest).map (fun q => -q)
  | '+' :: rest => parseUnsigned rest
  | _ => parseUnsigned l

/-- The string pipeline applied to one tip cell, in source order: drop
every dollar sign, drop every comma, turn every opening parenthesis into
a minus sign, drop every closing parenthesis, strip whitespace. -/
def cleanTipChars (l : List Char) : List Char :=
  trimChars
    ((((l.filter (fun c => !(c == '$'))).filter (fun c => !(c == ','))).map
        (fun c => if c = '(' then '-' else c)).filter (fun c => !(c == ')')))

/-- Cleaning plus numeric coercion of one tip cell; `none` is the NaN that
`errors="coerce"` produces for unparseable cells. -/
def cleanTipCell (s : String) : Option Rat :=
  parseSigned (cleanTipChars s.toList)

/-! ## Column role detection (tips.py, `_detect_columns`, lines 268-352) -/

/-- Keyword lists of lines 289-292. -/
def dateKw : List String := ["date", "shift", "day", "work date", "shift date"]

/-- Tips keywords (line 290). -/
def tipsKw : List String := ["tip", "tips", "gratuity", "gratuities"]

/-- Hours keywords (line 291). -/
def hoursKw : List String := ["hour", "hours", "hrs", "worked", "time"]

/-- Name keywords (line 292). -/
def nameKw : List String := ["name", "employee", "staff", "emp"]

/-- Step 1 scan (lines 281-285): first column, in column order, whose
lower-cased name contains some keyword of the role. -/
def findByKeywords (lowered : List (String × String)) (kws : List String) : Option String :=
  lowered.findSome?
    (fun p => if kws.any (fun kw => strContains p.2 kw) then some p.1 else none)

/-- The missing-role report of lines 309-314 and 336-341, in source
order. -/
def missingRoles (d t h n : Option String) : List String :=
  (if d.isNone then ["date_col"] else []) ++
  (if t.isNone then ["tips_col"] else []) ++
  (if h.isNone then ["hours_col"] else []) ++
  (if n.isNone then ["name_col"] else [])

/-- Embeds `_detect_columns`.  `sniffDate c` is the content oracle of the
line 300-307 fallback: whether the first five non-null values of column
`c` parse with `pd.to_datetime`.  The fuzzy-match block of lines 317-334
computes `difflib.get_close_matches` for every still-missing role but
stores the winner with `locals()[key] = orig`; in CPython writing to
`locals()` of a function frame never rebinds the local variables
`date_col`, `tips_col`, `hours_col`, `name_col`, so the block has no
effect and the final missing check of lines 336-344 sees the values left
by steps 1 and 2 only. -/
def detectColumns (cols : List String) (sniffDate : String → Bool) :
    Except (List String) (String × String × String × String) :=
  let lowered := cols.map (fun c => (c, lowerString c))
  let tips1 := findByKeywords lowered tipsKw
  let hours1 := findByKeywords lowered hoursKw
  let name1 := findByKeywords lowered nameKw
  let date2 :=
    match findByKeywords lowered dateKw with
    | some c => some c
    | none => cols.find? sniffDate
  match date2, tips1, hours1, name1 with
  | some d, some t, some h, some n => Except.ok (d, t, h, n)
  | d, t, h, n => Except.error (missingRoles d t h n)

/-! Model of `difflib.SequenceMatcher.ratio` for short strings (no junk
heuristic applies below 200 characters): total size of the recursively
chosen longest matching blocks, doubled, over the summed lengths. -/

/-- Length of the common leading segment of two character lists. -/
def commonLead : List Char → List Char → Nat
  | a :: as, b :: bs => if a = b then commonLead as bs + 1 else 0
  | _, _ => 0

/-- All candidate blocks (i, j, length of match starting there), in the
scan order of `find_longest_match`. -/
def blockCands (a b : List Char) : List (Nat × Nat × Nat) :=
  (List.range a.length).flatMap
    (fun i => (List.range b.length).map
      (fun j => (i, j, commonLead (a.drop i) (b.drop j))))

/-- Keep the earlier candidate unless the later one is strictly longer:
with the ascending (i, j) scan order this is exactly the difflib
tie-breaking (longest block, then lowest i, then lowest j). -/
def keepBetter (best c : Nat × Nat × Nat) : Nat × Nat × Nat :=
  if best.2.2 < c.2.2 then c else best

/-- The longest matching block of two character lists. -/
def longestBlock (a b : List Char) : Nat × Nat × Nat :=
  (blockCands a b).foldl keepBetter (0, 0, 0)

/-- Total matched size over the recursive block decomposition of
`get_matching_blocks`; the fuel only bounds the recursion depth and
`a.length + 1` is always enough. -/
def matchTotalFuel : Nat → List Char → List Char → Nat
  | 0, _, _ => 0
  | Nat.succ fuel, a, b =>
      let c := longestBlock a b
      if c.2.2 = 0 then 0
      else
        matchTotalFuel fuel (a.take c.1) (b.take c.2.1) + c.2.2 +
          matchTotalFuel fuel (a.drop (c.1 + c.2.2)) (b.drop (c.2.1 + c.2.2))

/-- Total matched size of the difflib block decomposition. -/
def matchTotal (a b : List Char) : Nat :=
  matchTotalFuel (a.length + 1) a b

/-- The difflib similarity of two strings, as an exact rational. -/
def similarity (a b : String) : Rat :=
  if a.toList.length + b.toList.length = 0 then 1
  else 2 * (matchTotal a.toList b.toList : Rat) /
    ((a.toList.length + b.toList.length : Nat) : Rat)

/-- Whether `difflib.get_close_matches(kw, names, n=1, cutoff)` returns a
non-empty list: some candidate reaches the cutoff (the quick-ratio
pre-filters are upper bounds of the ratio, so they never exclude such a
candidate). -/
def fuzzyHasMatch (kw : String) (names : List String) (cutoff : Rat) : Bool :=
  names.any (fun n => decide (cutoff ≤ similarity kw n))

/-! ## Clock-only mode (tips.py lines 374-410) -/

/-- Exact lower-cased names accepted for the clock employee column
(line 386). -/
def clockEmpNames : List String := ["employee", "name", "staff"]

/-- Exact lower-cased names accepted for the clock date column
(line 388). -/
def clockDateNames : List String := ["date", "shift date", "clock in date"]

/-- Exact lower-cased names accepted for the clock hours column
(line 390). -/
def clockHoursNames : List String := ["hours", "elapsed hours", "hrs"]

/-- Auto-detection of one clock column (lines 386-390):
`next((c for c in df.columns if c.lower() in accepted), None)`. -/
def detectClockCol (cols : List String) (accepted : List String) : Option String :=
  cols.find? (fun c => decide (lowerString c ∈ accepted))

/-- A hint is kept verbatim; only a missing hint is auto-detected
(lines 382-390). -/
def resolveHint (cols : List String) (hint : Option String) (accepted : List String) :
    Option String :=
  match hint with
  | some c => some c
  | none => detectClockCol cols accepted

/-- Python truthiness of an optional string, as used by
`all([clock_employee_col, clock_date_col, clock_hours_col])`
(line 392). -/
def truthy : Option String → Bool
  | some s => !(s == "")
  | none => false

/-- Resolution and validation of the three clock columns in clock-only
mode (lines 382-393); the error is the ValueError of line 393. -/
def clockOnlyResolve (cols : List String) (e d h : Option String) :
    Except String (String × String × String) :=
  let e2 := resolveHint cols e clockEmpNames
  let d2 := resolveHint cols d clockDateNames
  let h2 := resolveHint cols h clockHoursNames
  if truthy e2 && truthy d2 && truthy h2 then
    Except.ok (e2.getD "", d2.getD "", h2.getD "")
  else
    Except.error "Could not detect required clock columns: employee, date, hours"

/-- One clock row after column resolution: employee name, date, and the
raw hours cell (`none` when numeric coercion fails). -/
structure CRow where
  name : String
  date : Int
  hours : Option Rat
deriving DecidableEq, Repr

/-- Hours of a clock row after
`pd.to_numeric(..., errors="coerce").fillna(0.0)` (line 404). -/
def cHours (r : CRow) : Rat := r.hours.getD 0

/-- Embeds `df.groupby("Employee")["Hours"].sum().reset_index()`
(line 406): one row per distinct employee, keys in ascending order, value
the sum of that employee-s hours. -/
def groupSumHours (rows : List CRow) : List (String × Rat) :=
  (sortedKeys (rows.map (fun r => r.name))).map
    (fun n => (n, ((rows.filter (fun r => r.name == n)).map cHours).sum))

/-- The whole clock-only branch (lines 374-410): resolve columns, then
return the empty tip distribution together with the per-employee summed
hours as the export table. -/
def clockOnlyRun (cols : List String) (e d h : Option String) (rows : List CRow) :
    Except String (List (String × Rat) × List (String × Rat)) :=
  (clockOnlyResolve cols e d h).map (fun _ => ([], groupSumHours rows))

/-! ## Clock merge during tips reconciliation (tips.py lines 421-444,
clock.py lines 9-72) -/

/-- Pandas column dtypes that matter to the merge keys. -/
inductive Dtype
  | str
  | datetime
  | num
deriving DecidableEq, Repr

/-- Column layout of the frame `process_clock_csv` returns (clock.py
lines 39-72): the employee column (object dtype), the date column
(datetime64 after `pd.to_datetime`), and the summed hours renamed to
`Total Daily Hours` (float64). -/
def processedClockCols (e d : String) : List (String × Dtype) :=
  [(e, Dtype.str), (d, Dtype.datetime), ("Total Daily Hours", Dtype.num)]

/-- Dtype of the first column with a given name. -/
def lookupDtype (cols : List (String × Dtype)) (c : String) : Option Dtype :=
  (cols.find? (fun p => p.1 == c)).map (fun p => p.2)

/-- Control path of the `try` block of tips.py lines 423-442 when both a
tips table and a clock table are supplied.

`process_clock_csv` is called with the clock column hints passed through
verbatim (lines 425-430), so a missing hint arrives as Python `None`,
which is never a column name, and the required-column check of clock.py
lines 34-37 raises KeyError.  With all three hints naming real columns,
the merge of lines 433-438 uses `right_on=["Date", "Employee"]`, which
must name columns of the processed clock frame or pandas raises KeyError.
When they do, the paired left keys are `df[date_col].dt.date` (python
date objects, object dtype) and `df[name_col]` (strings, object dtype),
and pandas raises ValueError for a merge key that pairs an object column
with a datetime64 or numeric column. -/
def mergeClockAttempt (clockCols : List String) (e d h : Option String) :
    Except String Unit :=
  match e, d, h with
  | some ec, some dc, some hc =>
      if ec ∈ clockCols ∧ dc ∈ clockCols ∧ hc ∈ clockCols then
        match lookupDtype (processedClockCols ec dc) "Date" with
        | none => Except.error "KeyError: right_on columns not found"
        | some dtDate =>
            match lookupDtype (processedClockCols ec dc) "Employee" with
            | none => Except.error "KeyError: right_on columns not found"
            | some dtEmp =>
                if dtDate = Dtype.str ∧ dtEmp = Dtype.str then
                  Except.ok ()
                else
                  Except.error "ValueError: incompatible merge key dtypes"
      else Except.error "KeyError: missing required columns"
  | _, _, _ => Except.error "KeyError: missing required columns"

/-- The merged-hours semantics the surrounding code intends (spec 4.6 and
the comments of tips.py lines 431-440): clock-aggregated hours override
the tips-table hours for every (employee, date) pair present in the
aggregated clock data. -/
def overrideHours (rows : List TRow) (clock : List (String × Int × Rat)) : List TRow :=
  rows.map (fun r =>
    match clock.find? (fun c => c.1 == r.name && c.2.1 == r.date) with
    | some c => { r with hours := c.2.2 }
    | none => r)

/-- The tips-plus-clock path of `distribute_daily_tips_df`: attempt the
clock merge inside `try`; on any exception fall back to the tips-table
hours (lines 443-444) and run the distribution loop. -/
def distributeWithClock (rows : List TRow) (clock : List (String × Int × Rat))
    (clockCols : List String) (e d h : Option String) : List (String × Rat) :=
  match mergeClockAttempt clockCols e d h with
  | Except.ok _ => tipDistribution (overrideHours rows clock)
  | Except.error _ => tipDistribution rows

/-! # Theorems -/

/-! ## Lemmas about the accumulator dict -/

theorem distMass_upsert (m : List (String × Rat)) (n : String) (v : Rat) :
    distMass (upsert m n v) = distMass m + v := by
  induction m with
  | nil => simp [upsert, distMass]
  | cons p t ih =>
      obtain ⟨k, w⟩ := p
      by_cases h : k = n
      · simp [upsert, h, distMass]
        ring
      · simp only [upsert, if_neg h, distMass, List.map_cons, List.sum_cons] at ih ⊢
        rw [ih]
        ring

theorem mem_upsert_nonneg (m : List (String × Rat)) (n : String) (v : Rat)
    (hm : ∀ p ∈ m, 0 ≤ p.2) (hv : 0 ≤ v) :
    ∀ p ∈ upsert m n v, 0 ≤ p.2 := by
  induction m with
  | nil =>
      intro p hp
      simp only [upsert, List.mem_singleton] at hp
      subst hp
      exact hv
  | cons q t ih =>
      obtain ⟨k, w⟩ := q
      intro p hp
      by_cases h : k = n
      · simp only [upsert, if_pos h, List.mem_cons] at hp
        rcases hp with rfl | hp
        · have hw : (0:Rat) ≤ w := hm (k, w) (List.mem_cons_self _ _)
          exact add_nonneg hw hv
        · exact hm p (List.mem_cons_of_mem _ hp)
      · simp only [upsert, if_neg h, List.mem_cons] at hp
        rcases hp with rfl | hp
        · exact hm (k, w) (List.mem_cons_self _ _)
        · exact ih (fun q hq => hm q (List.mem_cons_of_mem _ hq)) p hp

/-! ## Lemmas about one day of the distribution loop -/

theorem foldl_rowStep_mass (T H : Rat) (day : List TRow) (acc : List (String × Rat)) :
    distMass (day.foldl (rowStep T H) acc) =
      distMass acc +
        (day.map (fun r => if r.hours ≤ 0 then 0 else T * (r.hours / H))).sum := by
  induction day generalizing acc with
  | nil => simp
  | cons r t ih =>
      simp only [List.foldl_cons, List.map_cons, List.sum_cons]
      rw [ih]
      by_cases h : r.hours ≤ 0
      · simp [rowStep, h]
      · rw [rowStep, if_neg h, distMass_upsert, if_neg h]
        ring

theorem foldl_rowStep_nonneg (T H : Rat) (hT : 0 ≤ T) (hH : 0 ≤ H)
    (day : List TRow) (acc : List (String × Rat)) (hacc : ∀ p ∈ acc, 0 ≤ p.2) :
    ∀ p ∈ day.foldl (rowStep T H) acc, 0 ≤ p.2 := by
  induction day generalizing acc with
  | nil => exact hacc
  | cons r t ih =>
      simp only [List.foldl_cons]
      by_cases h : r.hours ≤ 0
      · rw [rowStep, if_pos h]
        exact ih acc hacc
      · rw [rowStep, if_neg h]
        refine ih _ (mem_upsert_nonneg _ _ _ hacc ?_)
        have hr : (0:Rat) ≤ r.hours := le_of_lt (lt_of_not_le h)
        exact mul_nonneg hT (div_nonneg hr hH)

theorem sum_map_mul_div (T H : Rat) (day : List TRow) :
    (day.map (fun r => T * (r.hours / H))).sum =
      T * ((day.map (fun r => r.hours)).sum / H) := by
  induction day with
  | nil => simp
  | cons r t ih =>
      simp only [List.map_cons, List.sum_cons, ih]
      rw [add_div, mul_add]

theorem mem_of_mem_groupByDate (rows : List TRow) (day : List TRow)
    (hday : day ∈ groupByDate rows) : ∀ r ∈ day, r ∈ rows := by
  rw [groupByDate] at hday
  obtain ⟨d, _, rfl⟩ := List.mem_map.mp hday
  exact fun r hr => List.mem_of_mem_filter hr

theorem processDays_nonneg (days : List (List TRow)) (acc : List (String × Rat))
    (hacc : ∀ p ∈ acc, 0 ≤ p.2) (hdays : ∀ day ∈ days, ∀ r ∈ day, 0 ≤ r.tips) :
    ∀ p ∈ days.foldl dayStep acc, 0 ≤ p.2 := by
  induction days generalizing acc with
  | nil => exact hacc
  | cons day rest ih =>
      simp only [List.foldl_cons]
      refine ih _ ?_ (fun g hg => hdays g (List.mem_cons_of_mem _ hg))
      rw [dayStep]
      split
      · exact hacc
      · rename_i hcond
        push_neg at hcond
        have htips : ∀ r ∈ day, 0 ≤ r.tips := hdays day (List.mem_cons_self _ _)
        have hT : (0:Rat) ≤ dayTips day := by
          refine List.sum_nonneg ?_
          intro x hx
          obtain ⟨r, hr, rfl⟩ := List.mem_map.mp hx
          exact htips r hr
        have hH : (0:Rat) ≤ dayHours day := le_of_lt hcond.1
        exact foldl_rowStep_nonneg _ _ hT hH day acc hacc

/-! ## Claims C1, C2 and C5: the distribution algorithm -/

/-- Claim C1: for a day group whose per-row hours are all non-negative,
whose total hours are strictly positive and whose total tips are
non-zero, the `dayStep` pass adds exactly the day total `dayTips day` to
the accumulated distribution (sum of per-employee allocations equals the
day pool, over exact rational arithmetic). -/
theorem claim_C1 (acc : List (String × Rat)) (day : List TRow)
    (hnn : ∀ r ∈ day, 0 ≤ r.hours) (hH : 0 < dayHours day) (hT : dayTips day ≠ 0) :
    distMass (dayStep acc day) = distMass acc + dayTips day := by
  have hcond : ¬(dayHours day ≤ 0 ∨ dayTips day = 0) := by
    push_neg
    exact ⟨hH, hT⟩
  rw [dayStep, if_neg hcond, foldl_rowStep_mass]
  congr 1
  have hpt : ∀ r ∈ day,
      (if r.hours ≤ 0 then (0:Rat) else dayTips day * (r.hours / dayHours day)) =
        dayTips day * (r.hours / dayHours day) := by
    intro r hr
    by_cases h : r.hours ≤ 0
    · have h0 : r.hours = 0 := le_antisymm h (hnn r hr)
      rw [if_pos h, h0]
      simp
    · rw [if_neg h]
  rw [List.map_congr_left hpt, sum_map_mul_div]
  rw [show (day.map (fun r => r.hours)).sum = dayHours day from rfl]
  rw [div_self (ne_of_gt hH), mul_one]

/-- Witness for C1 at a concrete day: two employees with 5 hours each and
a 100 pool; the mass added is exactly 100. -/
theorem claim_C1_witness :
    distMass (dayStep [] [⟨"Alice", 1, 5, 100⟩, ⟨"Bob", 1, 5, 0⟩]) =
      distMass [] + dayTips [⟨"Alice", 1, 5, 100⟩, ⟨"Bob", 1, 5, 0⟩] :=
  claim_C1 [] [⟨"Alice", 1, 5, 100⟩, ⟨"Bob", 1, 5, 0⟩]
    (by decide)
    (by norm_num [dayHours])
    (by norm_num [dayTips])

/-- Claim C2: a day group whose total hours are non-positive or whose
total tips are zero changes no accumulated total, and the loop simply
continues with the remaining day groups (no error). -/
theorem claim_C2 (acc : List (String × Rat)) (day : List TRow)
    (rest : List (List TRow)) (h : dayHours day ≤ 0 ∨ dayTips day = 0) :
    dayStep acc day = acc ∧ processDays acc (day :: rest) = processDays acc rest := by
  have h1 : dayStep acc day = acc := by rw [dayStep, if_pos h]
  refine ⟨h1, ?_⟩
  rw [processDays, processDays, List.foldl_cons, h1]

/-- Witness for C2: a day with positive hours but a zero tip pool is
skipped. -/
theorem claim_C2_witness :
    dayStep [("Zoe", 7)] [⟨"Bob", 1, 5, 0⟩] = [("Zoe", 7)] ∧
      processDays [("Zoe", 7)] [[⟨"Bob", 1, 5, 0⟩]] = processDays [("Zoe", 7)] [] :=
  claim_C2 [("Zoe", 7)] [⟨"Bob", 1, 5, 0⟩] [] (by right; norm_num [dayTips])

/-- Claim C5 fails as stated: with a negative day pool (tips cells can be
negative after accounting-negative cleanup) the accumulated value is
negative. One employee, 5 hours, day pool -100 yields the distribution
value -100. -/
theorem claim_C5_counterexample :
    ¬ (∀ p ∈ tipDistribution [⟨"Ann", 0, 5, -100⟩], (0:Rat) ≤ p.2) := by
  intro hall
  have hmem : ("Ann", (-100:Rat)) ∈ tipDistribution [⟨"Ann", 0, 5, -100⟩] := by
    have hev : tipDistribution [⟨"Ann", 0, 5, -100⟩] = [("Ann", -100)] := by
      simp [tipDistribution, groupByDate, sortedKeys, insertSorted, dayStep, dayTips,
        dayHours, rowStep, upsert]
      norm_num
    rw [hev]
    exact List.mem_singleton.mpr rfl
  have := hall _ hmem
  norm_num at this

/-- Claim C5 amended: when every tips cell of the input is non-negative,
every accumulated value of the returned distribution is non-negative. -/
theorem claim_C5 (rows : List TRow) (h : ∀ r ∈ rows, 0 ≤ r.tips) :
    ∀ p ∈ tipDistribution rows, 0 ≤ p.2 := by
  rw [tipDistribution]
  refine processDays_nonneg _ _ (by simp) ?_
  intro day hday r hr
  exact h r (mem_of_mem_groupByDate rows day hday r hr)

/-- Witness for C5 amended at a one-row input with non-negative tips. -/
theorem claim_C5_witness :
    (∀ r ∈ [(⟨"Alice", 1, 5, 100⟩ : TRow)], (0:Rat) ≤ r.tips) ∧
      (∀ p ∈ tipDistribution [⟨"Alice", 1, 5, 100⟩], (0:Rat) ≤ p.2) :=
  ⟨by decide, claim_C5 [⟨"Alice", 1, 5, 100⟩] (by decide)⟩

/-! ## Lemmas about sorted key enumeration (pandas groupby order) -/

theorem insertSorted_cons {α : Type} [LinearOrder α] (n m : α) (t : List α) :
    insertSorted n (m :: t) =
      if n = m then m :: t
      else if n < m then n :: m :: t
      else m :: insertSorted n t := rfl

theorem mem_insertSorted {α : Type} [LinearOrder α] (x n : α) (l : List α) :
    x ∈ insertSorted n l ↔ x = n ∨ x ∈ l := by
  induction l with
  | nil => simp [insertSorted]
  | cons m t ih =>
      rw [insertSorted_cons]
      by_cases h1 : n = m
      · subst h1
        rw [if_pos rfl]
        simp only [List.mem_cons]
        tauto
      · by_cases h2 : n < m
        · rw [if_neg h1, if_pos h2]
          simp [List.mem_cons]
        · rw [if_neg h1, if_neg h2]
          simp only [List.mem_cons, ih]
          tauto

theorem sorted_insertSorted {α : Type} [LinearOrder α] (n : α) (l : List α)
    (hl : l.Sorted (· < ·)) : (insertSorted n l).Sorted (· < ·) := by
  induction l with
  | nil => simp [insertSorted]
  | cons m t ih =>
      rw [List.sorted_cons] at hl
      rw [insertSorted_cons]
      by_cases h1 : n = m
      · subst h1
        rw [if_pos rfl]
        exact List.sorted_cons.mpr hl
      · by_cases h2 : n < m
        · rw [if_neg h1, if_pos h2, List.sorted_cons]
          refine ⟨?_, List.sorted_cons.mpr hl⟩
          intro b hb
          rcases List.mem_cons.mp hb with rfl | hb
          · exact h2
          · exact lt_trans h2 (hl.1 b hb)
        · rw [if_neg h1, if_neg h2, List.sorted_cons]
          refine ⟨?_, ih hl.2⟩
          intro b hb
          rcases (mem_insertSorted b n t).mp hb with rfl | hb
          · exact lt_of_le_of_ne (le_of_not_lt h2) (Ne.symm h1)
          · exact hl.1 b hb

theorem sorted_foldl_insertSorted {α : Type} [LinearOrder α] (l acc : List α)
    (hacc : acc.Sorted (· < ·)) :
    (l.foldl (fun a n => insertSorted n a) acc).Sorted (· < ·) := by
  induction l generalizing acc with
  | nil => exact hacc
  | cons x t ih => exact ih _ (sorted_insertSorted x acc hacc)

theorem sortedKeys_sorted {α : Type} [LinearOrder α] (l : List α) :
    (sortedKeys l).Sorted (· < ·) :=
  sorted_foldl_insertSorted l [] (by simp)

theorem sortedKeys_nodup {α : Type} [LinearOrder α] (l : List α) :
    (sortedKeys l).Nodup :=
  (sortedKeys_sorted l).nodup

theorem mem_foldl_insertSorted {α : Type} [LinearOrder α] (l acc : List α) (x : α) :
    x ∈ l.foldl (fun a n => insertSorted n a) acc ↔ x ∈ acc ∨ x ∈ l := by
  induction l generalizing acc with
  | nil => simp
  | cons y t ih =>
      simp only [List.foldl_cons, ih, mem_insertSorted, List.mem_cons]
      tauto

theorem mem_sortedKeys {α : Type} [LinearOrder α] (l : List α) (x : α) :
    x ∈ sortedKeys l ↔ x ∈ l := by
  rw [sortedKeys, mem_foldl_insertSorted]
  simp

/-! ## Claims C6 and C10: clock-only mode -/

/-- Claim C6: when clock-only column resolution succeeds, the call
succeeds, returns the empty tip distribution, and the export table has
exactly one row per distinct employee (no duplicate keys, a key for
exactly the employees present) whose value is the sum of that
employee-s hours over all input rows. -/
theorem claim_C6 (cols : List String) (e d h : Option String) (rows : List CRow)
    (t : String × String × String) (hok : clockOnlyResolve cols e d h = Except.ok t) :
    clockOnlyRun cols e d h rows = Except.ok ([], groupSumHours rows) ∧
    ((groupSumHours rows).map Prod.fst).Nodup ∧
    (∀ n, n ∈ (groupSumHours rows).map Prod.fst ↔ n ∈ rows.map (fun r => r.name)) ∧
    (∀ p ∈ groupSumHours rows,
      p.2 = ((rows.filter (fun r => r.name == p.1)).map cHours).sum) := by
  have hkeys : (groupSumHours rows).map Prod.fst = sortedKeys (rows.map fun r => r.name) := by
    rw [groupSumHours, List.map_map]
    exact List.map_id _
  refine ⟨?_, ?_, ?_, ?_⟩
  · rw [clockOnlyRun, hok]
    rfl
  · rw [hkeys]
    exact sortedKeys_nodup _
  · intro n
    rw [hkeys, mem_sortedKeys]
  · intro p hp
    rw [groupSumHours] at hp
    obtain ⟨n, _, rfl⟩ := List.mem_map.mp hp
    rfl

/-- Witness for C6: the spec scenario with hours Gina 3 and Hank 5 and no
tips source; the export shows those hours and the distribution is
empty. -/
theorem claim_C6_witness :
    clockOnlyRun ["Employee", "Date", "Hours"] none none none
        [⟨"Gina", 0, some 3⟩, ⟨"Hank", 0, some 5⟩] =
      Except.ok ([], groupSumHours [⟨"Gina", 0, some 3⟩, ⟨"Hank", 0, some 5⟩]) :=
  (claim_C6 ["Employee", "Date", "Hours"] none none none
    [⟨"Gina", 0, some 3⟩, ⟨"Hank", 0, some 5⟩]
    ("Employee", "Date", "Hours") (by decide)).1

/-- Claim C10: in clock-only mode with no hints, a column is accepted for
a role only when its lower-cased name is exactly in the fixed list for
that role, and when some role has no such column the call fails with the
ValueError of line 393. -/
theorem claim_C10 (cols : List String)
    (hmiss : detectClockCol cols clockEmpNames = none ∨
      detectClockCol cols clockDateNames = none ∨
      detectClockCol cols clockHoursNames = none) :
    clockOnlyResolve cols none none none =
      Except.error "Could not detect required clock columns: employee, date, hours" ∧
    (∀ acc c, detectClockCol cols acc = some c → c ∈ cols ∧ lowerString c ∈ acc) := by
  constructor
  · rcases hmiss with hm | hm | hm <;>
      simp [clockOnlyResolve, resolveHint, hm, truthy]
  · intro acc c hc
    refine ⟨List.mem_of_find?_eq_some hc, ?_⟩
    have := List.find?_some hc
    exact of_decide_eq_true this

/-- Witness for C10: the default column names of the Clock Aggregator
(`Employee Name`, `Clock In Date`, `Elapsed Hours`) are rejected in
clock-only mode because `employee name` is not an exact member of the
accepted employee list. -/
theorem claim_C10_witness :
    clockOnlyResolve ["Employee Name", "Clock In Date", "Elapsed Hours"] none none none =
      Except.error "Could not detect required clock columns: employee, date, hours" :=
  (claim_C10 ["Employee Name", "Clock In Date", "Elapsed Hours"]
    (Or.inl (by decide))).1

/-! ## Lemmas about the first index satisfying a predicate -/

theorem findIdxQ_first {α : Type} (p : α → Bool) (l : List α) (i : Nat) (hi : i < l.length)
    (hp : p (l.get ⟨i, hi⟩) = true)
    (hfore : ∀ j (hj : j < l.length), j < i → p (l.get ⟨j, hj⟩) = false) :
    l.findIdx? p = some i := by
  induction l generalizing i with
  | nil => exact absurd hi (by simp)
  | cons a t ih =>
      cases i with
      | zero =>
          have ha : p a = true := hp
          simp [List.findIdx?_cons, ha]
      | succ i =>
          have ha : p a = false := hfore 0 (by simp) (Nat.succ_pos i)
          have hi2 : i < t.length := Nat.lt_of_succ_lt_succ hi
          have hp2 : p (t.get ⟨i, hi2⟩) = true := hp
          have hfore2 : ∀ j (hj : j < t.length), j < i → p (t.get ⟨j, hj⟩) = false := by
            intro j hj hlt
            exact hfore (j + 1) (by simpa using Nat.succ_lt_succ hj) (Nat.succ_lt_succ hlt)
          simp [List.findIdx?_cons, ha, ih i hi2 hp2 hfore2]

theorem findIdxQ_none {α : Type} (p : α → Bool) (l : List α)
    (h : ∀ j (hj : j < l.length), p (l.get ⟨j, hj⟩) = false) :
    l.findIdx? p = none := by
  induction l with
  | nil => simp
  | cons a t ih =>
      have ha : p a = false := h 0 (by simp)
      have h2 : ∀ j (hj : j < t.length), p (t.get ⟨j, hj⟩) = false := by
        intro j hj
        exact h (j + 1) (by simpa using Nat.succ_lt_succ hj)
      simp [List.findIdx?_cons, ha, ih h2]

/-! ## Claim C8: the header locator -/

/-- Claim C8: a table with at most one row keeps header row 0; on a
larger table the scan looks only at the first 15 rows and selects the
first row passing both filters; if no scanned row passes, row 0 is used;
and a passing row always has at least 40 percent of its cells filled, so
the scan never selects a sparser row. -/
theorem claim_C8 (ncols : Nat) (rows : List (List (Option String))) :
    (rows.length ≤ 1 → locateHeader ncols rows = 0) ∧
    (∀ i (hi : i < (rows.take 15).length),
      rowPasses ncols ((rows.take 15).get ⟨i, hi⟩) = true →
      (∀ j (hj : j < (rows.take 15).length), j < i →
        rowPasses ncols ((rows.take 15).get ⟨j, hj⟩) = false) →
      1 < rows.length →
      locateHeader ncols rows = i) ∧
    ((∀ j (hj : j < (rows.take 15).length),
        rowPasses ncols ((rows.take 15).get ⟨j, hj⟩) = false) →
      locateHeader ncols rows = 0) ∧
    (∀ row : List (Option String), rowPasses ncols row = true →
      2 * ncols ≤ 5 * countFilled row) := by
  refine ⟨?_, ?_, ?_, ?_⟩
  · intro hle
    rw [locateHeader, if_pos hle]
  · intro i hi hp hfore hlen
    rw [locateHeader, if_neg (not_le.mpr hlen),
      findIdxQ_first (rowPasses ncols) (rows.take 15) i hi hp hfore]
    rfl
  · intro hall
    by_cases hle : rows.length ≤ 1
    · rw [locateHeader, if_pos hle]
    · rw [locateHeader, if_neg hle, findIdxQ_none (rowPasses ncols) (rows.take 15) hall]
      rfl
  · intro row hp
    rw [rowPasses, Bool.and_eq_true] at hp
    exact of_decide_eq_true hp.1

/-- Witness for C8: a three-row table with two columns whose first row is
entirely empty; the scan skips it (0 percent fill) and selects row 1. -/
theorem claim_C8_witness :
    locateHeader 2 [[none, none], [some "a", some "b"], [some "c", some "d"]] = 1 := by
  refine (claim_C8 2 _).2.1 1 (by decide) (by decide) ?_ (by decide)
  intro j hj hlt
  have hj0 : j = 0 := Nat.lt_one_iff.mp hlt
  subst hj0
  exact (by decide : rowPasses 2 [(none : Option String), none] = false)

/-! ## Lemmas for the tip-cell cleaning claim -/

theorem string_toList_append (s t : String) : (s ++ t).toList = s.toList ++ t.toList := by
  cases s
  cases t
  rfl

theorem parseUnsigned_chars (l : List Char) (q : Rat) (h : parseUnsigned l = some q) :
    ∀ c ∈ l, c.isDigit = true ∨ c = '.' := by
  intro c hc
  rw [← List.takeWhile_append_dropWhile Char.isDigit l, List.mem_append] at hc
  rcases hc with hc | hc
  · exact Or.inl (List.mem_takeWhile_imp hc)
  · simp only [parseUnsigned] at h
    split at h
    · rename_i heq
      rw [heq] at hc
      exact absurd hc (List.not_mem_nil c)
    · rename_i fs heq
      rw [heq] at hc
      rcases List.mem_cons.mp hc with rfl | hc
      · exact Or.inr rfl
      · split_ifs at h with h1 h2
        exact Or.inl (List.all_eq_true.mp h2 c hc)
    · exact absurd h (by simp)

theorem nonspecial_of_numchar (c : Char) (h : c.isDigit = true ∨ c = '.') :
    c ≠ '$' ∧ c ≠ ',' ∧ c ≠ ')' ∧ c ≠ '(' ∧ c.isWhitespace = false := by
  rcases h with h | h
  · refine ⟨?_, ?_, ?_, ?_, ?_⟩
    · intro he; rw [he] at h; exact absurd h (by decide)
    · intro he; rw [he] at h; exact absurd h (by decide)
    · intro he; rw [he] at h; exact absurd h (by decide)
    · intro he; rw [he] at h; exact absurd h (by decide)
    · cases hsp : c.isWhitespace
      · rfl
      · have hd : ((c = ' ' ∨ c = '\t') ∨ c = '\r') ∨ c = '\n' := by
          simpa [Char.isWhitespace] using hsp
        rcases hd with ((rfl | rfl) | rfl) | rfl <;> exact absurd h (by decide)
  · subst h
    exact ⟨by decide, by decide, by decide, by decide, by decide⟩

theorem dropWhile_eq_self_of_none {α : Type} (p : α → Bool) (l : List α)
    (h : ∀ c ∈ l, p c = false) : l.dropWhile p = l := by
  cases l with
  | nil => rfl
  | cons a t =>
      rw [List.dropWhile_cons, h a (List.mem_cons_self _ _)]
      simp

theorem trimChars_eq_self (l : List Char) (h : ∀ c ∈ l, c.isWhitespace = false) :
    trimChars l = l := by
  rw [trimChars, dropWhile_eq_self_of_none _ _ h, dropWhile_eq_self_of_none, List.reverse_reverse]
  intro c hc
  exact h c (List.mem_reverse.mp hc)

theorem cleanTip_wrap (x : List Char) (hx : ∀ c ∈ x, c.isDigit = true ∨ c = '.') :
    cleanTipChars ('$' :: '(' :: (x ++ [')'])) = '-' :: x := by
  have hns := fun c hc => nonspecial_of_numchar c (hx c hc)
  rw [cleanTipChars]
  have h1 : ('$' :: '(' :: (x ++ [')'])).filter (fun c => !(c == '$')) =
      '(' :: (x ++ [')']) := by
    rw [List.filter_cons, List.filter_cons]
    simp only [show (!('$' == '$')) = false from rfl, show (!('(' == '$')) = true from rfl,
      if_false, if_true]
    rw [List.filter_append, List.filter_eq_self.mpr, List.filter_cons]
    · rfl
    · intro c hc
      simp [(hns c hc).1]
  have h2 : ('(' :: (x ++ [')'])).filter (fun c => !(c == ',')) = '(' :: (x ++ [')']) := by
    rw [List.filter_eq_self.mpr]
    intro c hc
    rcases List.mem_cons.mp hc with rfl | hc
    · rfl
    · rcases List.mem_append.mp hc with hc | hc
      · simp [(hns c hc).2.1]
      · rcases List.mem_singleton.mp hc with rfl
        rfl
  have h3 : ('(' :: (x ++ [')'])).map (fun c => if c = '(' then '-' else c) =
      '-' :: (x ++ [')']) := by
    rw [List.map_cons, if_pos rfl]
    congr 1
    rw [List.map_append]
    have hxm : x.map (fun c => if c = '(' then '-' else c) = x := by
      have hcg : ∀ c ∈ x, (if c = '(' then '-' else c) = id c := by
        intro c hc
        simp [(hns c hc).2.2.2.1]
      rw [List.map_congr_left hcg, List.map_id]
    rw [hxm]
    rfl
  have h4 : ('-' :: (x ++ [')'])).filter (fun c => !(c == ')')) = '-' :: x := by
    rw [List.filter_cons, List.filter_append, List.filter_eq_self.mpr, List.filter_cons]
    · simp
    · intro c hc
      simp [(hns c hc).2.2.1]
  rw [h1, h2, h3, h4]
  apply trimChars_eq_self
  intro c hc
  rcases List.mem_cons.mp hc with rfl | hc
  · rfl
  · exact (hns c hc).2.2.2.2

/-! ## Claim C9: accounting-negative currency cells -/

/-- Claim C9: for every numeral string X (a string the unsigned decimal
parser accepts with value q), the cleaning pipeline maps the
accounting-negative cell `$(X)` to the numeric value `-q`. -/
theorem claim_C9 (X : String) (q : Rat) (hX : parseUnsigned X.toList = some q) :
    cleanTipCell ("$(" ++ X ++ ")") = some (-q) := by
  have hchars := parseUnsigned_chars X.toList q hX
  have htl : ("$(" ++ X ++ ")").toList = '$' :: '(' :: (X.toList ++ [')']) := by
    rw [string_toList_append, string_toList_append]
    simp
  rw [cleanTipCell, htl, cleanTip_wrap X.toList hchars]
  show (parseUnsigned X.toList).map (fun q => -q) = some (-q)
  rw [hX]
  rfl

/-- Witness for C9: the spec scenario, the cell `$(500.00)` cleans to the
number -500. -/
theorem claim_C9_witness : cleanTipCell ("$(" ++ "500.00" ++ ")") = some (-(500:Rat)) :=
  claim_C9 "500.00" 500
    (by simp +decide [parseUnsigned, fracVal, digitsVal, digitVal])

/-! ## Claims C4 and C7: the clock merge during reconciliation -/

theorem mergeClockAttempt_fails (cc : List String) (e d h : Option String) :
    ∃ msg, mergeClockAttempt cc e d h = Except.error msg := by
  cases e with
  | none => cases d <;> cases h <;> exact ⟨_, rfl⟩
  | some ec =>
      cases d with
      | none => cases h <;> exact ⟨_, rfl⟩
      | some dc =>
          cases h with
          | none => exact ⟨_, rfl⟩
          | some hc =>
              rw [mergeClockAttempt]
              by_cases hmem : ec ∈ cc ∧ dc ∈ cc ∧ hc ∈ cc
              · rw [if_pos hmem]
                by_cases h1 : ec = "Date"
                · subst h1
                  by_cases h2 : dc = "Employee"
                  · subst h2
                    exact ⟨"ValueError: incompatible merge key dtypes", by decide⟩
                  · simp [processedClockCols, lookupDtype, List.find?,
                      beq_eq_false_iff_ne.mpr h2]
                · by_cases h2 : dc = "Date"
                  · subst h2
                    by_cases h3 : ec = "Employee"
                    · subst h3
                      exact ⟨"ValueError: incompatible merge key dtypes", by decide⟩
                    · simp [processedClockCols, lookupDtype, List.find?,
                        beq_eq_false_iff_ne.mpr h1, beq_eq_false_iff_ne.mpr h3]
                  · simp [processedClockCols, lookupDtype, List.find?,
                      beq_eq_false_iff_ne.mpr h1, beq_eq_false_iff_ne.mpr h2]
              · rw [if_neg hmem]
                exact ⟨_, rfl⟩

/-- Claim C4 fails on the code: whatever clock column hints and clock
table are supplied, the merge attempt of tips.py lines 423-442 raises
(its `right_on=["Date", "Employee"]` never both name columns of the
processed clock frame with the object dtype of the left keys), the
exception is caught, and the distribution is always computed from the
tips-table hours; clock hours never override. -/
theorem claim_C4 (rows : List TRow) (clock : List (String × Int × Rat))
    (cc : List String) (e d h : Option String) :
    distributeWithClock rows clock cc e d h = tipDistribution rows := by
  obtain ⟨msg, hm⟩ := mergeClockAttempt_fails cc e d h
  rw [distributeWithClock, hm]

/-- Claim C7: when the clock processing or merge raises, the exception is
caught and the distribution equals the result with no clock table at
all. -/
theorem claim_C7 (rows : List TRow) (clock : List (String × Int × Rat))
    (cc : List String) (e d h : Option String) (msg : String)
    (hfail : mergeClockAttempt cc e d h = Except.error msg) :
    distributeWithClock rows clock cc e d h = tipDistribution rows := by
  rw [distributeWithClock, hfail]

/-- Witness for C7 at a concrete failing merge: clock hints naming the
Clock Aggregator default columns; the merge raises KeyError on
`right_on` and the tips-table hours are used. -/
theorem claim_C7_witness :
    distributeWithClock [⟨"Ann", 0, 2, 100⟩] [("Ann", 0, 8)]
        ["Employee Name", "Clock In Date", "Elapsed Hours"]
        (some "Employee Name") (some "Clock In Date") (some "Elapsed Hours") =
      tipDistribution [⟨"Ann", 0, 2, 100⟩] :=
  claim_C7 [⟨"Ann", 0, 2, 100⟩] [("Ann", 0, 8)]
    ["Employee Name", "Clock In Date", "Elapsed Hours"]
    (some "Employee Name") (some "Clock In Date") (some "Elapsed Hours")
    "KeyError: right_on columns not found" (by decide)

/-! ## Claim C3: the fuzzy-match fallback of column detection -/

/-- Claim C3 fails on the code: on the table with columns Date, Tips,
Hours, Nme the name role is unresolved after steps 1 and 2, the name
keyword `name` fuzzy-matches the column `nme` at cutoff 0.6 (similarity
6/7), yet detection still fails listing `name_col`, because the
`locals()[key] = orig` store of the fuzzy block never rebinds the
function locals. -/
theorem claim_C3 :
    detectColumns ["Date", "Tips", "Hours", "Nme"] (fun _ => false) =
      Except.error ["name_col"] ∧
    fuzzyHasMatch "name" (["Date", "Tips", "Hours", "Nme"].map lowerString) (3/5) = true := by
  constructor
  · decide
  · have hm : matchTotal "name".toList "nme".toList = 3 := by decide
    have hsim : similarity "name" "nme" = 6/7 := by
      rw [similarity, if_neg (by decide), hm]
      norm_num
    have hl : ["Date", "Tips", "Hours", "Nme"].map lowerString =
        ["date", "tips", "hours", "nme"] := by decide
    rw [fuzzyHasMatch, hl]
    apply List.any_eq_true.mpr
    refine ⟨"nme", by decide, ?_⟩
    rw [decide_eq_true_eq, hsim]
    norm_num

end TipHours

